import Mathlib

/-!
# Verification of the herr-jr bot core (src/main.rs)

Shallow embedding of the stateful core of the bot: the persistent
todo/users store (load at startup, save at shutdown), the command
handlers for `Todo` and `List`, the first-contact registration guard,
the broadcast loop `send_to_all`, and the daily scheduler's next-run
computation.

Conventions of the embedding:
* `ChatId` is `Int` (the Rust `ChatId` newtype over `i64`; the model is
  unbounded, which is faithful for every value a real `i64` can take).
* Rust strings that the program itself builds and parses (the
  `users.txt` snapshot) are modelled as `List Char`; opaque task
  strings are Lean `String`s.
* A Rust `panic!` / `unwrap` / `expect` failure is modelled as `none`
  of an `Option` result.
* `serde_json` is modelled at the JSON *value* level (inductive `Json`):
  the program's own contribution — stringified integer map keys, arrays
  of strings — is modelled exactly; the text layer belongs to the
  library.
-/

namespace HerrJr

abbrev ChatId := Int

/-! ## Decimal printing and parsing

`main.rs` writes `users.txt` with `user.to_string()` (i64 `Display`)
and reads it back with `line.parse::<i64>().unwrap()`. These model the
`Display` / `FromStr` decimal format of `i64`. -/

/-- The ASCII digit character for `d` (`0 ↦ '0'`, …, `9 ↦ '9'`). -/
def digitChar (d : Nat) : Char := Char.ofNat (48 + d)

/-- Fuel-driven digit extraction (structural recursion on the fuel, so
that the kernel can evaluate it). -/
def natDigitsRevAux (fuel : Nat) (n : Nat) : List Nat :=
  match fuel with
  | 0 => []
  | fuel + 1 => if n = 0 then [] else n % 10 :: natDigitsRevAux fuel (n / 10)

/-- The base-10 digits of `n`, least significant first; `[]` for `0`. -/
def natDigitsRev (n : Nat) : List Nat := natDigitsRevAux n n

theorem natDigitsRevAux_invariant (fuel : Nat) : ∀ (fuel' n : Nat),
    n ≤ fuel → n ≤ fuel' → natDigitsRevAux fuel n = natDigitsRevAux fuel' n := by
  induction fuel with
  | zero =>
    intro fuel' n hn _
    interval_cases n
    cases fuel' <;> simp [natDigitsRevAux]
  | succ fuel ih =>
    intro fuel' n hn hn'
    cases fuel' with
    | zero =>
      interval_cases n
      simp [natDigitsRevAux]
    | succ fuel' =>
      by_cases h : n = 0
      · simp [natDigitsRevAux, h]
      · have hdiv : n / 10 < n := Nat.div_lt_self (Nat.pos_of_ne_zero h) (by decide)
        simp only [natDigitsRevAux, if_neg h]
        rw [ih fuel' (n / 10) (by omega) (by omega)]

/-- The recurrence `natDigitsRev` satisfies. -/
theorem natDigitsRev_unfold (n : Nat) :
    natDigitsRev n = if n = 0 then [] else n % 10 :: natDigitsRev (n / 10) := by
  by_cases h : n = 0
  · subst h
    rfl
  · obtain ⟨m, rfl⟩ := Nat.exists_eq_succ_of_ne_zero h
    have hdiv : (m + 1) / 10 < m + 1 := Nat.div_lt_self (by omega) (by decide)
    simp only [natDigitsRev, natDigitsRevAux, if_neg h]
    rw [natDigitsRevAux_invariant m ((m + 1) / 10) ((m + 1) / 10) (by omega) le_rfl]

/-- Value of a little-endian digit list. -/
def digitsVal : List Nat → Nat
  | [] => 0
  | d :: ds => d + 10 * digitsVal ds

/-- Decimal rendering of a `Nat` as characters (Rust `u64`/`i64` `Display`
for non-negative values). -/
def natToDigitChars (n : Nat) : List Char :=
  if n = 0 then ['0'] else ((natDigitsRev n).reverse).map digitChar

/-- Decimal rendering of an `Int` (Rust `i64` `Display`). -/
def intToChars (i : Int) : List Char :=
  if i < 0 then '-' :: natToDigitChars i.natAbs else natToDigitChars i.natAbs

/-- The rendering `intToChars`, packaged as a Lean `String` (for JSON object keys). -/
def intToString (i : Int) : String := String.mk (intToChars i)

/-- The digit value of an ASCII digit character, `none` otherwise. -/
def charDigit? (c : Char) : Option Nat :=
  if '0' ≤ c ∧ c ≤ '9' then some (c.toNat - 48) else none

/-- Left-to-right accumulation of decimal digits; fails on any
non-digit character. -/
def parseNatAcc (acc : Nat) : List Char → Option Nat
  | [] => some acc
  | c :: cs =>
    match charDigit? c with
    | some d => parseNatAcc (acc * 10 + d) cs
    | none => none

/-- A non-empty all-digit string parses to its value; anything else
fails. -/
def parseNatDigits (cs : List Char) : Option Nat :=
  if cs = [] then none else parseNatAcc 0 cs

/-- Rust `str::parse::<i64>`: optional leading `-` or `+`, then at
least one decimal digit. -/
def parseIntChars (cs : List Char) : Option Int :=
  match cs with
  | [] => none
  | c :: rest =>
    if c = '-' then (parseNatDigits rest).map (fun n => -Int.ofNat n)
    else if c = '+' then (parseNatDigits rest).map Int.ofNat
    else (parseNatDigits cs).map Int.ofNat

theorem digitsVal_natDigitsRev (n : Nat) : digitsVal (natDigitsRev n) = n := by
  induction n using Nat.strong_induction_on with
  | _ n ih =>
    by_cases h : n = 0
    · subst h
      rfl
    · rw [natDigitsRev_unfold, if_neg h]
      simp only [digitsVal]
      rw [ih (n / 10) (Nat.div_lt_self (Nat.pos_of_ne_zero h) (by decide))]
      omega

theorem natDigitsRev_lt_ten (n : Nat) : ∀ d ∈ natDigitsRev n, d < 10 := by
  induction n using Nat.strong_induction_on with
  | _ n ih =>
    by_cases h : n = 0
    · subst h
      simp [natDigitsRev, natDigitsRevAux]
    · rw [natDigitsRev_unfold, if_neg h]
      simp only [List.mem_cons]
      rintro d (rfl | hd)
      · exact Nat.mod_lt _ (by decide)
      · exact ih (n / 10) (Nat.div_lt_self (Nat.pos_of_ne_zero h) (by decide)) d hd

theorem natDigitsRev_ne_nil (n : Nat) (h : n ≠ 0) : natDigitsRev n ≠ [] := by
  rw [natDigitsRev_unfold]
  simp [h]

theorem charDigit?_digitChar (d : Nat) (h : d < 10) :
    charDigit? (digitChar d) = some d := by
  interval_cases d <;> decide

theorem digitChar_ne_minus (d : Nat) (h : d < 10) : digitChar d ≠ '-' := by
  interval_cases d <;> decide

theorem digitChar_ne_plus (d : Nat) (h : d < 10) : digitChar d ≠ '+' := by
  interval_cases d <;> decide

theorem digitChar_ne_newline (d : Nat) (h : d < 10) : digitChar d ≠ '\n' := by
  interval_cases d <;> decide

theorem parseNatAcc_append (acc : Nat) (xs ys : List Char) :
    parseNatAcc acc (xs ++ ys) =
      match parseNatAcc acc xs with
      | some a => parseNatAcc a ys
      | none => none := by
  induction xs generalizing acc with
  | nil => simp [parseNatAcc]
  | cons c cs ih =>
    simp only [List.cons_append, parseNatAcc]
    cases charDigit? c with
    | some d => exact ih (acc * 10 + d)
    | none => rfl

theorem parseNatAcc_digits (ds : List Nat) (h : ∀ d ∈ ds, d < 10) (acc : Nat) :
    parseNatAcc acc ((ds.reverse).map digitChar) =
      some (acc * 10 ^ ds.length + digitsVal ds) := by
  induction ds generalizing acc with
  | nil => simp [parseNatAcc, digitsVal]
  | cons d ds ih =>
    have hd : d < 10 := h d (by simp)
    have hds : ∀ x ∈ ds, x < 10 := fun x hx => h x (by simp [hx])
    rw [List.reverse_cons, List.map_append, parseNatAcc_append, ih hds acc]
    simp only [List.map_cons, List.map_nil, parseNatAcc,
      charDigit?_digitChar d hd]
    congr 1
    simp only [digitsVal, List.length_cons, pow_succ]
    ring

/-- Every rendering of a `Nat` is a non-empty list of digit images. -/
theorem natToDigitChars_eq_map (n : Nat) :
    ∃ ds : List Nat, natToDigitChars n = ds.map digitChar ∧
      (∀ d ∈ ds, d < 10) ∧ ds ≠ [] := by
  by_cases h : n = 0
  · subst h
    refine ⟨[0], by decide, by decide, by decide⟩
  · exact ⟨(natDigitsRev n).reverse, by simp [natToDigitChars, h],
      fun d hd => natDigitsRev_lt_ten n d (List.mem_reverse.mp hd),
      fun hc => natDigitsRev_ne_nil n h (by simpa using congrArg List.reverse hc)⟩

theorem parseNatDigits_natToDigitChars (n : Nat) :
    parseNatDigits (natToDigitChars n) = some n := by
  by_cases h : n = 0
  · subst h
    decide
  · have hne : natToDigitChars n ≠ [] := by
      obtain ⟨ds, heq, _, hds⟩ := natToDigitChars_eq_map n
      rw [heq]
      simpa using hds
    rw [parseNatDigits, if_neg hne]
    unfold natToDigitChars
    rw [if_neg h, parseNatAcc_digits (natDigitsRev n) (natDigitsRev_lt_ten n) 0,
      digitsVal_natDigitsRev]
    simp

theorem parseIntChars_cons (c : Char) (rest : List Char) :
    parseIntChars (c :: rest) =
      if c = '-' then (parseNatDigits rest).map (fun n => -Int.ofNat n)
      else if c = '+' then (parseNatDigits rest).map Int.ofNat
      else (parseNatDigits (c :: rest)).map Int.ofNat := rfl

/-- Round-trip for `i64` decimal printing and parsing. -/
theorem parseIntChars_intToChars (i : Int) :
    parseIntChars (intToChars i) = some i := by
  by_cases h : i < 0
  · rw [intToChars, if_pos h, parseIntChars_cons, if_pos rfl,
      parseNatDigits_natToDigitChars, Option.map_some']
    congr 1
    simp only [Int.ofNat_eq_coe]
    omega
  · rw [intToChars, if_neg h]
    obtain ⟨ds, heq, hlt, hne⟩ := natToDigitChars_eq_map i.natAbs
    obtain ⟨d, ds', rfl⟩ := List.exists_cons_of_ne_nil hne
    have hd : d < 10 := hlt d (by simp)
    rw [heq, List.map_cons, parseIntChars_cons,
      if_neg (digitChar_ne_minus d hd), if_neg (digitChar_ne_plus d hd),
      ← List.map_cons, ← heq, parseNatDigits_natToDigitChars, Option.map_some']
    simp only [Int.ofNat_eq_coe]
    congr 1
    omega

/-! ## Newline-joined lines (the `users.txt` format)

Saving uses `Vec::join("\n")`; loading uses `str::lines()`. -/

/-- Rust `Vec::<String>::join("\n")`. -/
def joinNl : List (List Char) → List Char
  | [] => []
  | [p] => p
  | p :: q :: ps => p ++ '\n' :: joinNl (q :: ps)

/-- Prepend a character to the first group of a split. -/
def consHead (c : Char) : List (List Char) → List (List Char)
  | [] => [[c]]
  | g :: gs => (c :: g) :: gs

/-- Split on `'\n'`, keeping empty groups (so a trailing newline yields a
trailing empty group). -/
def splitNl : List Char → List (List Char)
  | [] => [[]]
  | c :: cs => if c = '\n' then [] :: splitNl cs else consHead c (splitNl cs)

/-- Rust `str::lines()` (for input without carriage returns, which is all
this program ever writes): split on `'\n'`, except that the empty string
has no lines and a trailing newline does not open a final empty line. -/
def rustLines (s : List Char) : List (List Char) :=
  if s = [] then []
  else if s.getLast? = some '\n' then (splitNl s).dropLast
  else splitNl s

theorem splitNl_ne_nil (s : List Char) : splitNl s ≠ [] := by
  cases s with
  | nil => simp [splitNl]
  | cons c cs =>
    simp only [splitNl]
    split
    · simp
    · cases h : splitNl cs <;> simp [consHead]

theorem splitNl_no_nl (p : List Char) (hp : ∀ c ∈ p, c ≠ '\n') :
    splitNl p = [p] := by
  induction p with
  | nil => rfl
  | cons c cs ih =>
    have hc : c ≠ '\n' := hp c (by simp)
    rw [splitNl, if_neg hc, ih (fun x hx => hp x (by simp [hx]))]
    rfl

theorem splitNl_append (p s : List Char) (hp : ∀ c ∈ p, c ≠ '\n')
    (g : List Char) (gs : List (List Char)) (hs : splitNl s = g :: gs) :
    splitNl (p ++ s) = (p ++ g) :: gs := by
  induction p with
  | nil => simpa using hs
  | cons c p ih =>
    have hc : c ≠ '\n' := hp c (by simp)
    rw [List.cons_append, splitNl, if_neg hc,
      ih (fun x hx => hp x (by simp [hx]))]
    rfl

theorem joinNl_ne_nil (p : List Char) (ps : List (List Char)) (hp : p ≠ []) :
    joinNl (p :: ps) ≠ [] := by
  cases ps with
  | nil => simpa [joinNl] using hp
  | cons q ps => simp [joinNl]

theorem splitNl_joinNl (parts : List (List Char)) (h1 : parts ≠ [])
    (h2 : ∀ p ∈ parts, ∀ c ∈ p, c ≠ '\n') :
    splitNl (joinNl parts) = parts := by
  induction parts with
  | nil => exact absurd rfl h1
  | cons p ps ih =>
    cases ps with
    | nil => exact splitNl_no_nl p (h2 p (by simp))
    | cons q ps =>
      have hrest : splitNl (joinNl (q :: ps)) = q :: ps :=
        ih (by simp) (fun x hx => h2 x (by simp [List.mem_cons] at hx ⊢; tauto))
      have hs : splitNl ('\n' :: joinNl (q :: ps)) = [] :: q :: ps := by
        rw [splitNl, if_pos rfl, hrest]
      rw [joinNl, splitNl_append p _ (h2 p (by simp)) _ _ hs, List.append_nil]

theorem joinNl_getLast_ne_nl (parts : List (List Char))
    (h : ∀ p ∈ parts, p ≠ [] ∧ ∀ c ∈ p, c ≠ '\n') :
    (joinNl parts).getLast? ≠ some '\n' := by
  induction parts with
  | nil => simp [joinNl]
  | cons p ps ih =>
    cases ps with
    | nil =>
      intro hc
      obtain ⟨hne, hnl⟩ := h p (by simp)
      rw [show joinNl [p] = p from rfl] at hc
      obtain ⟨hx, heq⟩ := List.mem_getLast?_eq_getLast (Option.mem_def.mpr hc)
      exact hnl '\n' (by rw [heq]; exact List.getLast_mem hx) rfl
    | cons q ps =>
      rw [joinNl, List.getLast?_append_cons]
      have hqne : joinNl (q :: ps) ≠ [] := joinNl_ne_nil q ps (h q (by simp)).1
      rw [show ('\n' :: joinNl (q :: ps)) = ['\n'] ++ joinNl (q :: ps) from rfl,
        List.getLast?_append_of_ne_nil _ hqne]
      exact ih (fun x hx => h x (by simp [hx]))

/-- For non-empty, newline-free parts, `str::lines()` inverts
`Vec::join("\n")`. -/
theorem rustLines_joinNl (parts : List (List Char)) (h1 : parts ≠ [])
    (h2 : ∀ p ∈ parts, p ≠ [] ∧ ∀ c ∈ p, c ≠ '\n') :
    rustLines (joinNl parts) = parts := by
  obtain ⟨p, ps, rfl⟩ := List.exists_cons_of_ne_nil h1
  rw [rustLines, if_neg (joinNl_ne_nil p ps (h2 p (by simp)).1),
    if_neg (joinNl_getLast_ne_nl _ h2)]
  exact splitNl_joinNl _ (by simp) (fun x hx => (h2 x hx).2)

/-! ## JSON values and the todo snapshot codec

`main.rs` persists `TODO_LIST : HashMap<ChatId, Vec<String>>` with
`serde_json::to_string` and reads it back with `serde_json::from_str`,
unwrapping the result. We model the JSON document as a value of `Json`;
serde serializes the integer map key as a decimal string. -/

inductive Json where
  | str (s : String)
  | num (n : Int)
  | arr (elems : List Json)
  | obj (fields : List (String × Json))

/-- Deserialize each element, failing on the first bad one (serde's
behaviour, surfaced by the program's `unwrap`). -/
def mapOpt (f : α → Option β) : List α → Option (List β)
  | [] => some []
  | a :: as =>
    match f a with
    | none => none
    | some b => (mapOpt f as).map (fun bs => b :: bs)

/-- The in-memory `TODO_LIST` contents: a `HashMap<ChatId, Vec<String>>`,
modelled as an association list in iteration order. -/
abbrev TodoStore := List (ChatId × List String)

/-- Serialization `serde_json::to_string(&TODO_LIST)`: a JSON object whose keys are the
chat ids printed in decimal and whose values are arrays of the task
strings, in order. -/
def encodeTodo (store : TodoStore) : Json :=
  Json.obj (store.map (fun kv => (intToString kv.1, Json.arr (kv.2.map Json.str))))

/-- Deserialize a JSON value as `Vec<String>`. -/
def decodeStrArr : Json → Option (List String)
  | Json.arr es =>
    mapOpt (fun e =>
      match e with
      | Json.str s => some s
      | _ => none) es
  | _ => none

/-- Deserialize one object entry as a `(ChatId, Vec<String>)` pair: the
key must parse as an `i64`, the value as an array of strings. -/
def decodeTodoEntry (kv : String × Json) : Option (ChatId × List String) :=
  match parseIntChars kv.1.data, decodeStrArr kv.2 with
  | some k, some v => some (k, v)
  | _, _ => none

/-- Deserialization `serde_json::from_str::<HashMap<ChatId, Vec<String>>>`: the document
must be an object, and every entry must deserialize. -/
def decodeTodo : Json → Option TodoStore
  | Json.obj fields => mapOpt decodeTodoEntry fields
  | _ => none

/-! ## Startup load and shutdown save (`main`)

An `std::fs::read_to_string` outcome is `ok` with the file content,
`notFound` (`ErrorKind::NotFound`), or any other I/O error. For
`todo.json` the content is `some j` when the text is well-formed JSON
with value `j`, `none` when the text is not valid JSON (in which case
`from_str` fails already at the syntax level).

A `none` overall result models a panic of `main` (`unwrap` on a decode
failure); `some` is successful startup with the loaded collection. -/

inductive ReadResult (α : Type) where
  | ok (content : α)
  | notFound
  | otherError

/-- Lines 46–57 of `main.rs`: load `todo.json`. `Ok` content is decoded
with `from_str(..).unwrap()`; `NotFound` and other read errors leave the
initial empty map. -/
def loadTodoFile : ReadResult (Option Json) → Option TodoStore
  | .ok content => content.bind decodeTodo
  | .notFound => some []
  | .otherError => some []

/-- Lines 60–74 of `main.rs`: load `users.txt` by splitting into lines
and parsing each with `parse::<i64>().unwrap()`; `NotFound` and other
read errors leave the initial empty set. -/
def loadUsersFile : ReadResult (List Char) → Option (List ChatId)
  | .ok content => mapOpt parseIntChars (rustLines content)
  | .notFound => some []
  | .otherError => some []

/-- Lines 122–129 of `main.rs`: the `users.txt` content written at
shutdown — each chat id's decimal rendering, joined with `"\n"`. -/
def saveUsers (users : List ChatId) : List Char :=
  joinNl (users.map intToChars)

/-! ## Command handlers (`answer`) -/

/-- The `Command::Todo(task)` arm (lines 238–246):
`todo_list.entry(chat).or_insert_with(Vec::new).push(task)`. -/
def pushTask : TodoStore → ChatId → String → TodoStore
  | [], c, task => [(c, [task])]
  | kv :: rest, c, task =>
    if kv.1 = c then (kv.1, kv.2 ++ [task]) :: rest
    else kv :: pushTask rest c task

/-- A sequence of `Todo` commands from chat `c`, applied in order. -/
def applyTodos (store : TodoStore) (c : ChatId) (tasks : List String) : TodoStore :=
  tasks.foldl (fun s t => pushTask s c t) store

/-- Lookup by key in the `HashMap`. -/
def lookupStore : TodoStore → ChatId → Option (List String)
  | [], _ => none
  | kv :: rest, c => if kv.1 = c then some kv.2 else lookupStore rest c

/-- Decimal rendering of a display index. -/
def natToString (n : Nat) : String := String.mk (natToDigitChars n)

/-- One line of the `List` reply: `format!("{}. {}\n", i + 1, task)`. -/
def renderLine (i : Nat) (task : String) : String :=
  natToString (i + 1) ++ ". " ++ task ++ "\n"

/-- The full `List` reply body built by the loop on lines 248–251. -/
def renderList (tasks : List String) : String :=
  "<u>Todo list:</u>\n" ++ String.join ((tasks.enum).map (fun it => renderLine it.1 it.2))

/-- The `Command::List` arm (lines 247–255): it indexes the map directly,
`(TODO_LIST.lock().await)[&msg.chat.id]`, so a chat id with no entry
panics (`none`); otherwise the rendered list is sent. -/
def listHandler (store : TodoStore) (c : ChatId) : Option String :=
  (lookupStore store c).map renderList

/-! ## Broadcast (`send_to_all`, lines 132–136)

`send : ChatId → Bool` is the delivery oracle: `true` when Telegram
accepts the message for that chat. The result is the list of chats that
received the message, paired with `true` when the `unwrap` on a failed
send panicked (aborting the remaining sends). -/

def send_to_all (users : List ChatId) (send : ChatId → Bool) : List ChatId × Bool :=
  match users with
  | [] => ([], false)
  | u :: rest =>
    if send u then
      let r := send_to_all rest send
      (u :: r.1, r.2)
    else ([], true)

/-! ## Scheduler (`main`, lines 91–111) -/

/-- A local wall-clock instant: calendar day index and second of day. -/
structure LocalDateTime where
  day : Int
  sod : Nat

/-- Line 94: `(now.date() + Duration::days(1)).and_hms(8, 0, 0)` — the
day after `now`'s date, at 08:00:00, regardless of `now`'s time of day. -/
def nextRun (now : LocalDateTime) : LocalDateTime :=
  ⟨now.day + 1, 8 * 3600⟩

/-- Timestamp in seconds for comparing instants. -/
def toSecs (t : LocalDateTime) : Int := t.day * 86400 + (t.sod : Int)

/-- Lines 99–109, one wake-up of the scheduler loop: the weather fetch
result (`none` = network failure) is unwrapped — a failure panics the
scheduler task (`none`) and the loop never continues; on success the
message is broadcast. -/
def schedulerCycle (users : List ChatId) (fetch : Option String)
    (send : ChatId → Bool) : Option (List ChatId × Bool) :=
  match fetch with
  | none => none
  | some _ => some (send_to_all users send)

/-! ## Registration guard (`answer`, lines 169–179) -/

/-- The type `teloxide::types::User`, restricted to the field the guard reads. -/
structure TgUser where
  username : Option String

/-- An incoming message: its chat id and `msg.from()`. -/
structure TgMessage where
  chat_id : ChatId
  sender : Option TgUser

/-- The state effect of the guard for one command from chat `c`: insert
`c` into `USERS_LIST` if absent; the flag reports whether the greeting
branch ran. -/
def registerStep (users : List ChatId) (c : ChatId) : List ChatId × Bool :=
  if c ∈ users then (users, false) else (users ++ [c], true)

/-- A sequence of commands, identified by originating chat id, processed
in order. Returns the final `USERS_LIST` and the chats greeted, in
order. -/
def processTrace (users : List ChatId) : List ChatId → List ChatId × List ChatId
  | [] => (users, [])
  | c :: cs =>
    let step := registerStep users c
    let rest := processTrace step.1 cs
    (rest.1, (if step.2 then [c] else []) ++ rest.2)

/-- The guard with its reply: on first contact it formats
`"Hi {}!"` from `msg.from().expect(..).username.clone().expect(..)` —
a missing sender or username panics (`none`). Otherwise it returns the
updated user set and the greeting text sent (if any). -/
def registrationGreeting (users : List ChatId) (m : TgMessage) :
    Option (List ChatId × Option String) :=
  if m.chat_id ∈ users then some (users, none)
  else
    match m.sender with
    | none => none
    | some u =>
      match u.username with
      | none => none
      | some name => some (users ++ [m.chat_id], some ("Hi " ++ name ++ "!"))

/-! ## Helper lemmas -/

theorem mapOpt_map_roundtrip {α β : Type} (f : β → Option α) (g : α → β)
    (l : List α) (h : ∀ a ∈ l, f (g a) = some a) :
    mapOpt f (l.map g) = some l := by
  induction l with
  | nil => rfl
  | cons a as ih =>
    simp only [List.map_cons, mapOpt, h a (by simp),
      ih (fun x hx => h x (by simp [hx])), Option.map_some']

theorem intToChars_ne_nil (i : Int) : intToChars i ≠ [] := by
  rw [intToChars]
  obtain ⟨ds, heq, _, hne⟩ := natToDigitChars_eq_map i.natAbs
  split
  · simp
  · rw [heq]
    simpa using hne

theorem intToChars_ne_nl (i : Int) : ∀ c ∈ intToChars i, c ≠ '\n' := by
  rw [intToChars]
  obtain ⟨ds, heq, hlt, _⟩ := natToDigitChars_eq_map i.natAbs
  have hmap : ∀ c ∈ natToDigitChars i.natAbs, c ≠ '\n' := by
    rw [heq]
    intro c hc
    obtain ⟨d, hd, rfl⟩ := List.mem_map.mp hc
    exact digitChar_ne_newline d (hlt d hd)
  split
  · intro c hc
    rcases List.mem_cons.mp hc with rfl | hc
    · decide
    · exact hmap c hc
  · exact hmap

theorem loadUsers_saveUsers (users : List ChatId) :
    loadUsersFile (.ok (saveUsers users)) = some users := by
  cases users with
  | nil => rfl
  | cons u us =>
    show mapOpt parseIntChars (rustLines (joinNl ((u :: us).map intToChars))) = _
    rw [rustLines_joinNl _ (by simp)
      (by
        intro p hp
        obtain ⟨i, _, rfl⟩ := List.mem_map.mp hp
        exact ⟨intToChars_ne_nil i, intToChars_ne_nl i⟩)]
    exact mapOpt_map_roundtrip _ _ _ (fun a _ => parseIntChars_intToChars a)

theorem decodeStrArr_encode (v : List String) :
    decodeStrArr (Json.arr (v.map Json.str)) = some v :=
  mapOpt_map_roundtrip _ _ _ (fun _ _ => rfl)

theorem decodeTodo_encodeTodo (store : TodoStore) :
    decodeTodo (encodeTodo store) = some store := by
  rw [encodeTodo, decodeTodo]
  refine mapOpt_map_roundtrip _ _ _ (fun kv _ => ?_)
  obtain ⟨k, v⟩ := kv
  rw [decodeTodoEntry]
  show (match parseIntChars (intToChars k), decodeStrArr (Json.arr (v.map Json.str)) with
    | some k, some v => some (k, v)
    | _, _ => none) = some (k, v)
  rw [parseIntChars_intToChars, decodeStrArr_encode]

theorem lookup_pushTask_self (s : TodoStore) (c : ChatId) (t : String) :
    lookupStore (pushTask s c t) c = some ((lookupStore s c).getD [] ++ [t]) := by
  induction s with
  | nil => simp [pushTask, lookupStore]
  | cons kv rest ih =>
    by_cases h : kv.1 = c
    · simp [pushTask, lookupStore, h]
    · simp [pushTask, lookupStore, h, ih]

theorem lookup_applyTodos (c : ChatId) (ts : List String) (hts : ts ≠ [])
    (s : TodoStore) :
    lookupStore (applyTodos s c ts) c = some ((lookupStore s c).getD [] ++ ts) := by
  induction ts generalizing s with
  | nil => exact absurd rfl hts
  | cons t ts ih =>
    cases ts with
    | nil => simpa [applyTodos] using lookup_pushTask_self s c t
    | cons r rs =>
      show lookupStore (applyTodos (pushTask s c t) c (r :: rs)) c = _
      rw [ih (by simp), lookup_pushTask_self]
      simp

theorem processTrace_count_of_mem (c : ChatId) (cs : List ChatId)
    (users : List ChatId) (h : c ∈ users) :
    (processTrace users cs).1.count c = users.count c ∧
    (processTrace users cs).2.count c = 0 := by
  induction cs generalizing users with
  | nil => simp [processTrace]
  | cons d ds ih =>
    by_cases hd : d ∈ users
    · simpa [processTrace, registerStep, hd] using ih users h
    · have hcd : c ≠ d := fun hcd => hd (hcd ▸ h)
      have hmem : c ∈ users ++ [d] := List.mem_append_left _ h
      have := ih (users ++ [d]) hmem
      simp only [processTrace, registerStep, hd, if_false, if_true] at *
      refine ⟨?_, ?_⟩
      · rw [this.1, List.count_append]
        simp [List.count_singleton, hcd]
      · rw [List.count_append, this.2]
        simp [List.count_singleton, hcd]

/-! ## Claim theorems -/

/-- C1: the spec requires `List` for a chat with no todo entries to render
an empty list and not fail; the code (line 249) indexes the `HashMap`
directly, which panics for an unknown key. This theorem evaluates the
code at the failing situation: whenever the chat has no entry, the
handler panics (`none`) instead of replying. -/
theorem list_unknown_chat_panics (store : TodoStore) (c : ChatId)
    (h : lookupStore store c = none) : listHandler store c = none := by
  rw [listHandler, h]
  rfl

theorem list_unknown_chat_panics_witness :
    lookupStore [] 42 = none ∧ listHandler [] 42 = none :=
  ⟨rfl, list_unknown_chat_panics [] 42 rfl⟩

/-- C2: for every local time `now` (any second of the day, so both before
and after 08:00), the scheduler's next-run instant is strictly after
`now`, lies on the next calendar day, and is exactly 08:00:00. -/
theorem scheduler_next_run_tomorrow (now : LocalDateTime) (h : now.sod < 86400) :
    toSecs now < toSecs (nextRun now) ∧
    (nextRun now).day = now.day + 1 ∧ (nextRun now).sod = 8 * 3600 := by
  refine ⟨?_, rfl, rfl⟩
  simp only [toSecs, nextRun]
  omega

theorem scheduler_next_run_tomorrow_witness :
    (⟨0, 43200⟩ : LocalDateTime).sod < 86400 ∧
    (toSecs ⟨0, 43200⟩ < toSecs (nextRun ⟨0, 43200⟩) ∧
      (nextRun (⟨0, 43200⟩ : LocalDateTime)).day = (⟨0, 43200⟩ : LocalDateTime).day + 1 ∧
      (nextRun (⟨0, 43200⟩ : LocalDateTime)).sod = 8 * 3600) :=
  ⟨by decide, scheduler_next_run_tomorrow ⟨0, 43200⟩ (by decide)⟩

/-- C3: `Save` followed by `Load` reproduces the todo store (same keys
in the same order, each with its task list in order) and the users set
(the same list of chat ids), for every store and users set, including
multi-chat data. -/
theorem save_load_roundtrip (store : TodoStore) (users : List ChatId) :
    loadTodoFile (.ok (some (encodeTodo store))) = some store ∧
    loadUsersFile (.ok (saveUsers users)) = some users :=
  ⟨decodeTodo_encodeTodo store, loadUsers_saveUsers users⟩

/-- C4: after `Todo(c, t1), …, Todo(c, tn)` (n ≥ 1) from a chat with no
prior entry, `List(c)` finds exactly `[t1, …, tn]` in insertion order
and renders it with 1-based indices (`renderList` numbers entry `i` as
`i + 1`). -/
theorem todo_then_list_order (store : TodoStore) (c : ChatId) (ts : List String)
    (h0 : lookupStore store c = none) (hne : ts ≠ []) :
    lookupStore (applyTodos store c ts) c = some ts ∧
    listHandler (applyTodos store c ts) c = some (renderList ts) := by
  have h1 : lookupStore (applyTodos store c ts) c = some ts := by
    rw [lookup_applyTodos c ts hne store, h0]
    rfl
  exact ⟨h1, by rw [listHandler, h1]; rfl⟩

theorem todo_then_list_order_witness :
    lookupStore [] 7 = none ∧ (["buy milk", "call bob"] : List String) ≠ [] ∧
    (lookupStore (applyTodos [] 7 ["buy milk", "call bob"]) 7 =
        some ["buy milk", "call bob"] ∧
      listHandler (applyTodos [] 7 ["buy milk", "call bob"]) 7 =
        some (renderList ["buy milk", "call bob"])) :=
  ⟨rfl, by decide, todo_then_list_order [] 7 ["buy milk", "call bob"] rfl (by decide)⟩

/-- The rendering of a two-task list, concretely: header, then 1-based
numbered lines in insertion order. -/
theorem renderList_two_tasks :
    renderList ["buy milk", "call bob"] =
      "<u>Todo list:</u>\n1. buy milk\n2. call bob\n" := by decide

/-- C5: the spec requires a per-recipient delivery failure not to abort
the remaining deliveries nor to escape `Broadcast`; `send_to_all`
(line 134) unwraps every send, so with users `{111, 222}` where sending
to 111 fails and 222 would succeed, nobody receives the message and the
panic escapes. -/
theorem broadcast_unwrap_aborts :
    (send_to_all [111, 222] (fun u => decide (u = 222))).2 = true ∧
    (222 : ChatId) ∉ (send_to_all [111, 222] (fun u => decide (u = 222))).1 := by
  decide

/-- C6: the spec requires a failed weather fetch to be logged and the
cycle skipped with the loop continuing; the code (lines 101–104)
unwraps the fetch, so a failure panics the scheduler task and the loop
never continues — for every users set and delivery behaviour. -/
theorem scheduler_fetch_failure_kills_loop (users : List ChatId)
    (send : ChatId → Bool) : schedulerCycle users none send = none := rfl

/-- C7: over any command trace, a chat id `c` not known initially is
greeted exactly once — exactly when `c` occurs in the trace — and ends
up in `USERS_LIST` exactly once (no duplicate inserts). -/
theorem registration_inserts_once (users₀ trace : List ChatId) (c : ChatId)
    (h : c ∉ users₀) :
    (processTrace users₀ trace).2.count c = (if c ∈ trace then 1 else 0) ∧
    (processTrace users₀ trace).1.count c = (if c ∈ trace then 1 else 0) := by
  induction trace generalizing users₀ with
  | nil => simp [processTrace, List.count_eq_zero.mpr h]
  | cons d ds ih =>
    by_cases hdc : d = c
    · subst hdc
      have hcount := processTrace_count_of_mem d ds (users₀ ++ [d])
        (List.mem_append_right _ (by simp))
      have hsplit : processTrace users₀ (d :: ds) =
          ((processTrace (users₀ ++ [d]) ds).1,
            [d] ++ (processTrace (users₀ ++ [d]) ds).2) := by
        simp [processTrace, registerStep, h]
      rw [hsplit]
      constructor
      · rw [List.count_append, hcount.2]
        simp
      · rw [hcount.1, List.count_append, List.count_eq_zero.mpr h]
        simp
    · have hne : c ≠ d := fun hcd => hdc hcd.symm
      have hstep : c ∉ (registerStep users₀ d).1 := by
        rw [registerStep]
        split
        · exact h
        · simp [h, hne]
      have ihr := ih _ hstep
      have hsplit : processTrace users₀ (d :: ds) =
          ((processTrace (registerStep users₀ d).1 ds).1,
            (if (registerStep users₀ d).2 = true then [d] else []) ++
              (processTrace (registerStep users₀ d).1 ds).2) := rfl
      rw [hsplit]
      have hzero : (if (registerStep users₀ d).2 = true then [d] else []).count c = 0 := by
        split
        · simp [hne]
        · simp
      constructor
      · rw [List.count_append, hzero, Nat.zero_add, ihr.1]
        simp [hne]
      · rw [ihr.2]
        simp [hne]

theorem registration_inserts_once_witness :
    (5 : ChatId) ∉ ([] : List ChatId) ∧
    ((processTrace [] [5, 5, 7]).2.count 5 =
        (if (5 : ChatId) ∈ [5, 5, 7] then 1 else 0) ∧
      (processTrace [] [5, 5, 7]).1.count 5 =
        (if (5 : ChatId) ∈ [5, 5, 7] then 1 else 0)) :=
  ⟨by decide, registration_inserts_once [] [5, 5, 7] 5 (by decide)⟩

/-- C8: when neither snapshot file exists, startup loads an empty todo
store and an empty users set without failing. -/
theorem load_missing_snapshots_empty :
    loadTodoFile .notFound = some [] ∧ loadUsersFile .notFound = some [] :=
  ⟨rfl, rfl⟩

/-- C9 counterexample: the claim says a snapshot whose content fails to
decode is not fatal to startup; but a `users.txt` consisting of the
non-numeric line `"x"` makes startup panic (`unwrap` on `parse`), and
so does an unparsable `todo.json`. -/
theorem decode_failure_fatal_cx :
    loadUsersFile (.ok ['x']) = none ∧ loadTodoFile (.ok none) = none :=
  ⟨rfl, rfl⟩

/-- C9 amended: non-`NotFound` I/O *read* errors are indeed non-fatal
and leave the collections empty, but *decode* failures after a
successful read (invalid JSON, a wrong-shaped JSON document, or a
non-numeric users line) panic at startup. -/
theorem decode_failure_fatal :
    (loadTodoFile .otherError = some [] ∧ loadUsersFile .otherError = some []) ∧
    loadTodoFile (.ok none) = none ∧
    loadTodoFile (.ok (some (Json.str "oops"))) = none ∧
    loadUsersFile (.ok ['x']) = none :=
  ⟨⟨rfl, rfl⟩, rfl, rfl, rfl⟩

/-- C10: on first contact (chat id not yet known), the greeting reads
`msg.from()` and its `username` with `expect`: if the sender or the
username is missing the handler panics; only when both are present does
it reply `"Hi {username}!"`. -/
theorem first_contact_requires_username (users : List ChatId) (m : TgMessage)
    (h : m.chat_id ∉ users) :
    ((m.sender = none ∨ ∃ u, m.sender = some u ∧ u.username = none) →
      registrationGreeting users m = none) ∧
    (∀ u name, m.sender = some u → u.username = some name →
      registrationGreeting users m =
        some (users ++ [m.chat_id], some ("Hi " ++ name ++ "!"))) := by
  constructor
  · rintro (hs | ⟨u, hs, hu⟩)
    · rw [registrationGreeting, if_neg h, hs]
    · rw [registrationGreeting, if_neg h, hs]
      simp [hu]
  · intro u name hs hu
    rw [registrationGreeting, if_neg h, hs]
    simp [hu]

theorem first_contact_requires_username_witness :
    (5 : ChatId) ∉ ([] : List ChatId) ∧
    registrationGreeting [] ⟨5, none⟩ = none :=
  ⟨by decide,
    (first_contact_requires_username [] ⟨5, none⟩ (by decide)).1 (Or.inl rfl)⟩

end HerrJr
